import Mathlib

/-!
Verification of the tiled-inference reconstruction workflow of the
`r_em_workflows` repository.

The repository is a notebook (`r_em_denoise_workflows.ipynb`) that calls an
external denoising network.  The tiled reconstructor (`predict_patch_based`)
is provided by the external `tk_r_em` package; only its call sites appear in
the repository, so the reconstructor itself is modelled here from the spec.
The Batch Driver logic (dispatch between whole-image and patch-based
inference, the model-name directory filter, and the TIFF metadata round-trip)
is embedded directly from the notebook cells.
-/

namespace REm

/-- Modelled from the spec: an Image is an ordered 2D grid of numeric
samples (height × width).  Pixel values are modelled as integers; the
`data` function is read only at coordinates below `height` and `width`. -/
structure Image where
  height : Nat
  width : Nat
  data : Nat → Nat → Int

/-- A patch is a rectangular sub-region of an image, given as a function from
local (row, column) coordinates to pixel values. -/
def Patch : Type := Nat → Nat → Int

/-- Modelled from the spec: the error taxonomy of `reconstruct`.  The only
configuration error is `InvalidConfiguration` (patch/stride parameters
incompatible with the image dimensions). -/
inductive ReconError where
  | invalidConfiguration
deriving DecidableEq

/-- Modelled from the spec (Algorithm step 1, missing from src/ because
`predict_patch_based` lives in the external `tk_r_em` package): for one axis,
generate offsets `0, stride, 2*stride, ...` up to the last offset where
`offset + patchSize ≤ dim`; then append the final offset `dim − patchSize`
if it is not already present. -/
def axisOffsets (dim patchSize stride : Nat) : List Nat :=
  let base := (List.range ((dim - patchSize) / stride + 1)).map (fun k => k * stride)
  if dim - patchSize ∈ base then base else base ++ [dim - patchSize]

/-- Modelled from the spec: the Patch Grid is the cross product of the two
axis offset lists, visited in row-major order (top-to-bottom,
left-to-right). -/
def gridOffsets (img : Image) (patchSize stride : Nat) : List (Nat × Nat) :=
  (axisOffsets img.height patchSize stride).flatMap
    (fun oy => (axisOffsets img.width patchSize stride).map (fun ox => (oy, ox)))

/-- Modelled from the spec (Algorithm step 2): extract the patch at offset
`(oy, ox)` as a function of local coordinates. -/
def extractPatch (img : Image) (oy ox : Nat) : Patch :=
  fun i j => img.data (oy + i) (ox + j)

/-- Modelled from the spec (Algorithm step 3): group a list into consecutive
chunks of up to `n` elements, the last chunk possibly smaller. -/
def chunks (n : Nat) : List α → List (List α)
  | [] => []
  | x :: xs => (x :: xs.take (n - 1)) :: chunks n (xs.drop (n - 1))
termination_by l => l.length
decreasing_by simp [List.length_drop]; omega

/-- The ordered list of patches extracted at the grid offsets. -/
def patchesOf (img : Image) (patchSize stride : Nat) : List Patch :=
  (gridOffsets img patchSize stride).map (fun o => extractPatch img o.1 o.2)

/-- Modelled from the spec (Algorithm step 3): submit the patches to the
backend in batches of up to `batchSize`, preserving grid order, and
concatenate the returned denoised patches. -/
def denoisedOf (img : Image) (patchSize stride batchSize : Nat)
    (predictB : List Patch → List Patch) : List Patch :=
  ((chunks batchSize (patchesOf img patchSize stride)).map predictB).flatten

/-- Modelled from the spec (Algorithm step 4): write a denoised patch into
the reconstruction buffer at its offset; later writes take priority over
earlier ones (last patch written wins). -/
def writePatch (buf : Nat → Nat → Int) (patchSize oy ox : Nat) (p : Patch) :
    Nat → Nat → Int :=
  fun y x =>
    if oy ≤ y ∧ y < oy + patchSize ∧ ox ≤ x ∧ x < ox + patchSize then
      p (y - oy) (x - ox)
    else buf y x

/-- Write a list of (offset, denoised patch) pairs into a buffer in order,
so that the last covering patch wins on overlaps. -/
def assembleFrom (patchSize : Nat) (b0 : Nat → Nat → Int)
    (pairs : List ((Nat × Nat) × Patch)) : Nat → Nat → Int :=
  pairs.foldl (fun b pr => writePatch b patchSize pr.1.1 pr.1.2 pr.2) b0

/-- Modelled from the spec: the Tiled Inference Reconstructor.  Fails with
`InvalidConfiguration` when `patchSize` exceeds an image dimension, or
`stride = 0`, or `stride > patchSize`; the check happens before the backend
is called.  Otherwise it extracts the patch grid, runs the backend batch by
batch, writes the denoised patches into a fresh buffer in grid order
(overwrite on overlap), and returns a result of the original height and
width. -/
def reconstruct (img : Image) (patchSize stride batchSize : Nat)
    (predictB : List Patch → List Patch) : Except ReconError Image :=
  if img.height < patchSize ∨ img.width < patchSize ∨ stride = 0 ∨ patchSize < stride then
    Except.error ReconError.invalidConfiguration
  else
    Except.ok
      { height := img.height
        width := img.width
        data := assembleFrom patchSize (fun _ _ => 0)
          ((gridOffsets img patchSize stride).zip
            (denoisedOf img patchSize stride batchSize predictB)) }

/-! ## Batch Driver definitions, embedded from the notebook (sections 4 and 5) -/

/-- From the Batch Denoising loops (notebook sections 4 and 5): the
patch-based path is taken exactly when `nx > max_size_gpu or ny >
max_size_gpu`. -/
def usesPatchBased (nx ny maxSizeGpu : Nat) : Bool :=
  decide (maxSizeGpu < nx) || decide (maxSizeGpu < ny)

/-- From the Batch Denoising loops: the patch size passed to the patch-based
path is `int(max_size_gpu/2)`. -/
def driverPatchSize (maxSizeGpu : Nat) : Nat := maxSizeGpu / 2

/-- From the Batch Denoising loops: the stride passed to the patch-based
path is `int(max_size_gpu/4)`. -/
def driverStride (maxSizeGpu : Nat) : Nat := maxSizeGpu / 4

/-- From the notebook metadata readout cell: the fields of an input TIFF
consulted when saving the denoised result.  `xresNum` and `xresDen` are
`XResolution.value[0]` and `XResolution.value[1]`. -/
structure TiffInfo where
  xresNum : ℚ
  xresDen : ℚ
  isImageJ : Bool
  imagejUnit : String

/-- From the readout cell: `pixelsize = XResolution.value[1] /
XResolution.value[0]`. -/
def readPixelsize (t : TiffInfo) : ℚ := t.xresDen / t.xresNum

/-- From the readout cell: the unit is taken from the ImageJ metadata when
the file is an ImageJ TIFF, else the literal fallback `px`. -/
def readUnit (t : TiffInfo) : String :=
  if t.isImageJ then t.imagejUnit else "px"

/-- The calibration metadata attached by `tifffile.imwrite` in the save
cells. -/
structure SavedTiff where
  resolution : ℚ × ℚ
  unit : String

/-- From the save cells: the denoised image is written with
`resolution=(1./pixelsize, 1./pixelsize)` and `metadata=\x7b'unit': unit\x7d`,
where `pixelsize` and `unit` were read from the same input file. -/
def saveDenoised (t : TiffInfo) : SavedTiff :=
  { resolution := (1 / readPixelsize t, 1 / readPixelsize t)
    unit := readUnit t }

/-- From the image-count cell (section 4): the accepted model directory
names. -/
def valid_models : List String :=
  ["sfr_hrstem", "sfr_lrstem", "sfr_hrsem", "sfr_lrsem", "sfr_hrtem", "sfr_lrtem"]

/-- A subdirectory of the denoise directory together with the `*.tif` files
it contains. -/
structure Subdir where
  name : String
  tifFiles : List String

/-- From the image-count cell: `N` sums the `*.tif` file counts over the
subdirectories whose name is in `valid_models`. -/
def countDetectedImages (dirs : List Subdir) : Nat :=
  dirs.foldl (fun acc m => if m.name ∈ valid_models then acc + m.tifFiles.length else acc) 0

/-- From the Batch Denoising loop: the subdirectories actually processed are
exactly those whose name is in `valid_models`; all others are skipped. -/
def processedSubdirs (dirs : List Subdir) : List Subdir :=
  dirs.filter (fun m => decide (m.name ∈ valid_models))

/-- A concrete 4 × 4 image used to instantiate the general theorems. -/
def testImg : Image :=
  { height := 4, width := 4, data := fun y x => (y * 4 + x : Int) }

/-- A concrete 2048 × 2048 image matching the notebook scenario of section 2. -/
def bigImg : Image :=
  { height := 2048, width := 2048, data := fun y x => (y * 2048 + x : Int) }

/-! ## Helper lemmas -/

theorem chunks_flatten {α : Type} (n : Nat) (xs : List α) :
    (chunks n xs).flatten = xs := by
  generalize hl : xs.length = N
  induction N using Nat.strong_induction_on generalizing xs with
  | _ N ih =>
    cases xs with
    | nil => rw [chunks]; rfl
    | cons x xs =>
      rw [chunks, List.flatten_cons,
        ih (xs.drop (n - 1)).length (by simp [← hl]; omega) _ rfl]
      simp [List.take_append_drop]

theorem chunks_map_flatten {α : Type} (n : Nat) (f : α → α) (xs : List α) :
    ((chunks n xs).map (List.map f)).flatten = xs.map f := by
  rw [← List.map_flatten, chunks_flatten]

theorem chunks_pred_length {α : Type} (n : Nat) (pB : List α → List α)
    (hlen : ∀ l, (pB l).length = l.length) (xs : List α) :
    (((chunks n xs).map pB).flatten).length = xs.length := by
  generalize hl : xs.length = N
  induction N using Nat.strong_induction_on generalizing xs with
  | _ N ih =>
    cases xs with
    | nil => rw [chunks]; simpa using hl
    | cons x xs =>
      rw [chunks, List.map_cons, List.flatten_cons, List.length_append, hlen,
        ih (xs.drop (n - 1)).length (by simp [← hl]; omega) _ rfl]
      simp only [List.length_cons] at hl
      simp only [List.length_cons, List.length_take, List.length_drop]
      omega

theorem mem_axisOffsets_base {dim patchSize stride o : Nat}
    (h : o ∈ (List.range ((dim - patchSize) / stride + 1)).map (fun k => k * stride)) :
    o ∈ axisOffsets dim patchSize stride := by
  simp only [axisOffsets]
  split
  · exact h
  · exact List.mem_append_left _ h

theorem last_mem_axisOffsets (dim patchSize stride : Nat) :
    dim - patchSize ∈ axisOffsets dim patchSize stride := by
  simp only [axisOffsets]
  split
  · assumption
  · exact List.mem_append_right _ (List.mem_singleton.2 rfl)

theorem mem_axisOffsets_elim {dim patchSize stride o : Nat}
    (h : o ∈ axisOffsets dim patchSize stride) :
    o ∈ (List.range ((dim - patchSize) / stride + 1)).map (fun k => k * stride) ∨
      o = dim - patchSize := by
  simp only [axisOffsets] at h
  split at h
  · exact Or.inl h
  · rcases List.mem_append.1 h with h | h
    · exact Or.inl h
    · exact Or.inr (List.mem_singleton.1 h)

theorem axisOffsets_le {dim patchSize stride o : Nat} (hpd : patchSize ≤ dim)
    (h : o ∈ axisOffsets dim patchSize stride) : o + patchSize ≤ dim := by
  rcases mem_axisOffsets_elim h with h | rfl
  · simp only [List.mem_map, List.mem_range] at h
    obtain ⟨k, hk, rfl⟩ := h
    have h1 : k * stride ≤ (dim - patchSize) / stride * stride :=
      Nat.mul_le_mul_right stride (by omega)
    have h2 : (dim - patchSize) / stride * stride ≤ dim - patchSize :=
      Nat.div_mul_le_self _ _
    omega
  · omega

theorem axisOffsets_cover {dim patchSize stride : Nat} (hs : 0 < stride)
    (hsp : stride ≤ patchSize) (hpd : patchSize ≤ dim) {y : Nat} (hy : y < dim) :
    ∃ o ∈ axisOffsets dim patchSize stride, o ≤ y ∧ y < o + patchSize := by
  by_cases hc : y ≤ dim - patchSize
  · refine ⟨y / stride * stride, ?_, Nat.div_mul_le_self y stride, ?_⟩
    · apply mem_axisOffsets_base
      simp only [List.mem_map, List.mem_range]
      exact ⟨y / stride, by have : y / stride ≤ (dim - patchSize) / stride :=
        Nat.div_le_div_right hc; omega, rfl⟩
    · have h1 := Nat.div_add_mod y stride
      have h2 := Nat.mod_lt y hs
      calc y < stride * (y / stride) + stride := by omega
        _ = y / stride * stride + stride := by rw [Nat.mul_comm]
        _ ≤ y / stride * stride + patchSize := by omega
  · exact ⟨dim - patchSize, last_mem_axisOffsets dim patchSize stride, by omega, by omega⟩

theorem gridOffsets_cover_point (img : Image) {patchSize stride : Nat}
    (hs : 0 < stride) (hsp : stride ≤ patchSize)
    (hh : patchSize ≤ img.height) (hw : patchSize ≤ img.width)
    {y x : Nat} (hy : y < img.height) (hx : x < img.width) :
    ∃ o ∈ gridOffsets img patchSize stride,
      o.1 ≤ y ∧ y < o.1 + patchSize ∧ o.2 ≤ x ∧ x < o.2 + patchSize := by
  obtain ⟨oy, hoy, h1, h2⟩ := axisOffsets_cover hs hsp hh hy
  obtain ⟨ox, hox, h3, h4⟩ := axisOffsets_cover hs hsp hw hx
  refine ⟨(oy, ox), ?_, h1, h2, h3, h4⟩
  simp only [gridOffsets, List.mem_flatMap, List.mem_map]
  exact ⟨oy, hoy, ox, hox, rfl⟩

theorem gridOffsets_inside (img : Image) {patchSize stride : Nat}
    (hh : patchSize ≤ img.height) (hw : patchSize ≤ img.width) :
    ∀ o ∈ gridOffsets img patchSize stride,
      o.1 + patchSize ≤ img.height ∧ o.2 + patchSize ≤ img.width := by
  intro o ho
  simp only [gridOffsets, List.mem_flatMap, List.mem_map] at ho
  obtain ⟨oy, hoy, ox, hox, rfl⟩ := ho
  exact ⟨axisOffsets_le hh hoy, axisOffsets_le hw hox⟩

theorem assembleFrom_cover (patchSize y x : Nat)
    (pairs : List ((Nat × Nat) × Patch)) :
    ∀ b0 : Nat → Nat → Int,
      (∃ pr ∈ pairs,
        pr.1.1 ≤ y ∧ y < pr.1.1 + patchSize ∧ pr.1.2 ≤ x ∧ x < pr.1.2 + patchSize) →
      ∃ pr ∈ pairs,
        (pr.1.1 ≤ y ∧ y < pr.1.1 + patchSize ∧ pr.1.2 ≤ x ∧ x < pr.1.2 + patchSize) ∧
          assembleFrom patchSize b0 pairs y x = pr.2 (y - pr.1.1) (x - pr.1.2) := by
  induction pairs using List.reverseRecOn with
  | nil => intro b0 h; simp at h
  | append_singleton l a ih =>
    intro b0 h
    by_cases hcov : a.1.1 ≤ y ∧ y < a.1.1 + patchSize ∧ a.1.2 ≤ x ∧ x < a.1.2 + patchSize
    · refine ⟨a, List.mem_append_right _ (List.mem_singleton.2 rfl), hcov, ?_⟩
      simp only [assembleFrom, List.foldl_append, List.foldl_cons, List.foldl_nil,
        writePatch]
      rw [if_pos hcov]
    · obtain ⟨pr, hpr, hc⟩ := h
      rcases List.mem_append.1 hpr with hl | hr
      · obtain ⟨pr2, hpr2, hc2, hval⟩ := ih b0 ⟨pr, hl, hc⟩
        refine ⟨pr2, List.mem_append_left _ hpr2, hc2, ?_⟩
        simp only [assembleFrom, List.foldl_append, List.foldl_cons, List.foldl_nil,
          writePatch] at hval ⊢
        rw [if_neg hcov]
        exact hval
      · rw [List.mem_singleton.1 hr] at hc
        exact absurd hc hcov

theorem zip_self_map_snd {α β : Type} (f : α → β) :
    ∀ (l : List α), ∀ pr ∈ l.zip (l.map f), pr.2 = f pr.1 := by
  intro l
  induction l with
  | nil => intro pr h; simp at h
  | cons a l ih =>
    intro pr h
    rw [List.map_cons, List.zip_cons_cons] at h
    rcases List.mem_cons.1 h with rfl | h
    · rfl
    · exact ih pr h

theorem zip_self_map_mem {α β : Type} (f : α → β) :
    ∀ (l : List α), ∀ o ∈ l, (o, f o) ∈ l.zip (l.map f) := by
  intro l
  induction l with
  | nil => intro o h; simp at h
  | cons a l ih =>
    intro o h
    rw [List.map_cons, List.zip_cons_cons]
    rcases List.mem_cons.1 h with rfl | h
    · exact List.mem_cons_self _ _
    · exact List.mem_cons_of_mem _ (ih o h)

theorem mem_zip_left {α β : Type} :
    ∀ {l1 : List α} {l2 : List β}, l1.length = l2.length →
      ∀ {o}, o ∈ l1 → ∃ d, (o, d) ∈ l1.zip l2 := by
  intro l1
  induction l1 with
  | nil => intro l2 hlen o ho; simp at ho
  | cons a l ih =>
    intro l2 hlen o ho
    cases l2 with
    | nil => simp at hlen
    | cons b l2 =>
      rw [List.zip_cons_cons]
      rcases List.mem_cons.1 ho with rfl | ho
      · exact ⟨b, List.mem_cons_self _ _⟩
      · obtain ⟨d, hd⟩ := ih (by simpa using hlen) ho
        exact ⟨d, List.mem_cons_of_mem _ hd⟩

theorem countDetectedImages_aux (dirs : List Subdir) :
    ∀ acc : Nat,
      dirs.foldl
        (fun acc m => if m.name ∈ valid_models then acc + m.tifFiles.length else acc) acc =
      acc + ((processedSubdirs dirs).map (fun d => d.tifFiles.length)).sum := by
  induction dirs with
  | nil => intro acc; simp [processedSubdirs]
  | cons d ds ih =>
    intro acc
    rw [List.foldl_cons]
    by_cases h : d.name ∈ valid_models
    · rw [if_pos h, ih]
      simp only [processedSubdirs, List.filter_cons]
      rw [if_pos (decide_eq_true h)]
      simp only [List.map_cons, List.sum_cons]
      omega
    · rw [if_neg h, ih]
      simp only [processedSubdirs, List.filter_cons]
      rw [if_neg (by simpa using h)]

/-! ## Claim theorems -/

/-- Claim C2: for every image with height and width at least patchSize and
every stride with 0 < stride ≤ patchSize, the union of the patch regions of
the Patch Grid covers every pixel coordinate at least once, and every patch
(including the inward-shifted last one in each dimension) lies fully inside
the image boundary. -/
theorem grid_full_coverage (img : Image) (patchSize stride : Nat)
    (hh : patchSize ≤ img.height) (hw : patchSize ≤ img.width)
    (hs : 0 < stride) (hsp : stride ≤ patchSize) :
    (∀ y < img.height, ∀ x < img.width,
      ∃ o ∈ gridOffsets img patchSize stride,
        o.1 ≤ y ∧ y < o.1 + patchSize ∧ o.2 ≤ x ∧ x < o.2 + patchSize) ∧
    (∀ o ∈ gridOffsets img patchSize stride,
      o.1 + patchSize ≤ img.height ∧ o.2 + patchSize ≤ img.width) :=
  ⟨fun _ hy _ hx => gridOffsets_cover_point img hs hsp hh hw hy hx,
   gridOffsets_inside img hh hw⟩

/-- Witness for C2: the 4 × 4 test image with patchSize 2 and stride 1. -/
theorem grid_full_coverage_witness :
    (∀ y < testImg.height, ∀ x < testImg.width,
      ∃ o ∈ gridOffsets testImg 2 1,
        o.1 ≤ y ∧ y < o.1 + 2 ∧ o.2 ≤ x ∧ x < o.2 + 2) ∧
    (∀ o ∈ gridOffsets testImg 2 1,
      o.1 + 2 ≤ testImg.height ∧ o.2 + 2 ≤ testImg.width) :=
  grid_full_coverage testImg 2 1 (by decide) (by decide) (by decide) (by decide)

/-- Claim C3: each axis offset list consists exactly of the multiples of
stride whose patch fits inside the dimension, together with the final
boundary-correction offset dim − patchSize; concretely a 600 × 600 image
with patchSize 512 and stride 256 has offsets [0, 88] on each axis and a
2 × 2 grid of 4 patches. -/
theorem axisOffsets_spec (dim patchSize stride : Nat)
    (hs : 0 < stride) (hpd : patchSize ≤ dim) :
    (∀ o, o ∈ axisOffsets dim patchSize stride ↔
      ((∃ k, o = k * stride ∧ o + patchSize ≤ dim) ∨ o = dim - patchSize)) ∧
    axisOffsets 600 512 256 = [0, 88] ∧
    gridOffsets { height := 600, width := 600, data := fun _ _ => 0 } 512 256 =
      [(0, 0), (0, 88), (88, 0), (88, 88)] := by
  refine ⟨fun o => ⟨?_, ?_⟩, by decide, by decide⟩
  · intro h
    rcases mem_axisOffsets_elim h with h | rfl
    · simp only [List.mem_map, List.mem_range] at h
      obtain ⟨k, hk, rfl⟩ := h
      refine Or.inl ⟨k, rfl, ?_⟩
      have h1 : k * stride ≤ (dim - patchSize) / stride * stride :=
        Nat.mul_le_mul_right stride (by omega)
      have h2 := Nat.div_mul_le_self (dim - patchSize) stride
      omega
    · exact Or.inr rfl
  · intro h
    rcases h with ⟨k, rfl, hk⟩ | rfl
    · apply mem_axisOffsets_base
      simp only [List.mem_map, List.mem_range]
      refine ⟨k, ?_, rfl⟩
      have h1 : k * stride ≤ dim - patchSize := by omega
      have h2 := (Nat.le_div_iff_mul_le hs).2 h1
      omega
    · exact last_mem_axisOffsets dim patchSize stride

/-- Witness for C3 at the concrete configuration of the spec scenario. -/
theorem axisOffsets_spec_witness :
    (∀ o, o ∈ axisOffsets 600 512 256 ↔
      ((∃ k, o = k * 256 ∧ o + 512 ≤ 600) ∨ o = 600 - 512)) ∧
    axisOffsets 600 512 256 = [0, 88] ∧
    gridOffsets { height := 600, width := 600, data := fun _ _ => 0 } 512 256 =
      [(0, 0), (0, 88), (88, 0), (88, 88)] :=
  axisOffsets_spec 600 512 256 (by decide) (by decide)

/-- Claim C1: for every image whose height and width are at least patchSize
and every valid (patchSize, stride, batchSize) with a length-preserving
backend, reconstruct returns an output of exactly the input height and
width, and every output pixel takes its value from a denoised patch of the
grid that covers it, so every pixel is assigned at least one denoised
value. -/
theorem reconstruct_shape_preservation (img : Image)
    (patchSize stride batchSize : Nat) (predictB : List Patch → List Patch)
    (hh : patchSize ≤ img.height) (hw : patchSize ≤ img.width)
    (hs : 0 < stride) (hsp : stride ≤ patchSize)
    (hlen : ∀ l, (predictB l).length = l.length) :
    ∃ out, reconstruct img patchSize stride batchSize predictB = Except.ok out ∧
      out.height = img.height ∧ out.width = img.width ∧
      ∀ y < img.height, ∀ x < img.width,
        ∃ pr ∈ (gridOffsets img patchSize stride).zip
            (denoisedOf img patchSize stride batchSize predictB),
          (pr.1.1 ≤ y ∧ y < pr.1.1 + patchSize ∧ pr.1.2 ≤ x ∧
            x < pr.1.2 + patchSize) ∧
          out.data y x = pr.2 (y - pr.1.1) (x - pr.1.2) := by
  have hcond : ¬(img.height < patchSize ∨ img.width < patchSize ∨ stride = 0 ∨
      patchSize < stride) := by omega
  refine ⟨{ height := img.height, width := img.width,
            data := assembleFrom patchSize (fun _ _ => 0)
              ((gridOffsets img patchSize stride).zip
                (denoisedOf img patchSize stride batchSize predictB)) },
    by rw [reconstruct, if_neg hcond], rfl, rfl, ?_⟩
  intro y hy x hx
  obtain ⟨o, ho, hcov⟩ := gridOffsets_cover_point img hs hsp hh hw hy hx
  have hlen2 : (gridOffsets img patchSize stride).length =
      (denoisedOf img patchSize stride batchSize predictB).length := by
    rw [denoisedOf, chunks_pred_length _ _ hlen, patchesOf, List.length_map]
  obtain ⟨d, hd⟩ := mem_zip_left hlen2 ho
  exact assembleFrom_cover patchSize y x _ (fun _ _ => 0) ⟨(o, d), hd, hcov⟩

/-- Witness for C1: the 4 × 4 test image, patchSize 2, stride 1, batch size
1, identity backend. -/
theorem reconstruct_shape_preservation_witness :
    ∃ out, reconstruct testImg 2 1 1 (fun l => l) = Except.ok out ∧
      out.height = testImg.height ∧ out.width = testImg.width ∧
      ∀ y < testImg.height, ∀ x < testImg.width,
        ∃ pr ∈ (gridOffsets testImg 2 1).zip (denoisedOf testImg 2 1 1 (fun l => l)),
          (pr.1.1 ≤ y ∧ y < pr.1.1 + 2 ∧ pr.1.2 ≤ x ∧ x < pr.1.2 + 2) ∧
          out.data y x = pr.2 (y - pr.1.1) (x - pr.1.2) :=
  reconstruct_shape_preservation testImg 2 1 1 (fun l => l)
    (by decide) (by decide) (by decide) (by decide) (fun l => rfl)

/-- Claim C4: with the identity backend and the overwrite-on-overlap
(last-write-wins) policy, reconstruct returns the input image unchanged
(same height, width, and pixel values) for every image and every valid
(patchSize, stride). -/
theorem reconstruct_identity_backend (img : Image)
    (patchSize stride batchSize : Nat)
    (hh : patchSize ≤ img.height) (hw : patchSize ≤ img.width)
    (hs : 0 < stride) (hsp : stride ≤ patchSize) (hb : 0 < batchSize) :
    ∃ out, reconstruct img patchSize stride batchSize (fun l => l) =
        Except.ok out ∧
      out.height = img.height ∧ out.width = img.width ∧
      ∀ y < img.height, ∀ x < img.width, out.data y x = img.data y x := by
  have hcond : ¬(img.height < patchSize ∨ img.width < patchSize ∨ stride = 0 ∨
      patchSize < stride) := by omega
  have hden : denoisedOf img patchSize stride batchSize (fun l => l) =
      (gridOffsets img patchSize stride).map (fun o => extractPatch img o.1 o.2) := by
    rw [denoisedOf]
    have hmapid : (chunks batchSize (patchesOf img patchSize stride)).map
        (fun l => l) = chunks batchSize (patchesOf img patchSize stride) :=
      List.map_id' _
    rw [hmapid, chunks_flatten, patchesOf]
  refine ⟨{ height := img.height, width := img.width,
            data := assembleFrom patchSize (fun _ _ => 0)
              ((gridOffsets img patchSize stride).zip
                (denoisedOf img patchSize stride batchSize (fun l => l))) },
    by rw [reconstruct, if_neg hcond], rfl, rfl, ?_⟩
  intro y hy x hx
  obtain ⟨o, ho, hcov⟩ := gridOffsets_cover_point img hs hsp hh hw hy hx
  have hmem : (o, extractPatch img o.1 o.2) ∈
      (gridOffsets img patchSize stride).zip
        (denoisedOf img patchSize stride batchSize (fun l => l)) := by
    rw [hden]
    exact zip_self_map_mem _ _ o ho
  obtain ⟨pr, hpr, hc, hval⟩ :=
    assembleFrom_cover patchSize y x _ (fun _ _ => 0) ⟨_, hmem, hcov⟩
  have hsnd : pr.2 = extractPatch img pr.1.1 pr.1.2 := by
    rw [hden] at hpr
    exact zip_self_map_snd _ _ pr hpr
  show assembleFrom patchSize (fun _ _ => 0)
      ((gridOffsets img patchSize stride).zip
        (denoisedOf img patchSize stride batchSize (fun l => l))) y x =
    img.data y x
  rw [hval, hsnd]
  simp only [extractPatch]
  rw [Nat.add_sub_cancel' hc.1, Nat.add_sub_cancel' hc.2.2.1]

/-- Witness for C4: the 2048 × 2048 image of the notebook scenario with
patchSize 512, stride 256, batch size 2 is returned unchanged. -/
theorem reconstruct_identity_backend_witness :
    ∃ out, reconstruct bigImg 512 256 2 (fun l => l) = Except.ok out ∧
      out.height = bigImg.height ∧ out.width = bigImg.width ∧
      ∀ y < bigImg.height, ∀ x < bigImg.width, out.data y x = bigImg.data y x :=
  reconstruct_identity_backend bigImg 512 256 2
    (by decide) (by decide) (by decide) (by decide) (by decide)

/-- Claim C5: when patchSize equals both image dimensions and stride equals
patchSize, the grid degenerates to the single offset (0, 0) (one non-tiled
inference call) and the output of reconstruct equals the backend applied
directly to the whole image. -/
theorem reconstruct_single_tile (img : Image) (batchSize : Nat) (f : Patch → Patch)
    (hsq : img.width = img.height) (h0 : 0 < img.height) (hb : 0 < batchSize) :
    ∃ out, reconstruct img img.height img.height batchSize (List.map f) =
        Except.ok out ∧
      gridOffsets img img.height img.height = [(0, 0)] ∧
      out.height = img.height ∧ out.width = img.width ∧
      ∀ y < img.height, ∀ x < img.width, out.data y x = f img.data y x := by
  have hcond : ¬(img.height < img.height ∨ img.width < img.height ∨
      img.height = 0 ∨ img.height < img.height) := by omega
  have hax : ∀ dim : Nat, axisOffsets dim dim dim = [0] := by
    intro dim
    simp [axisOffsets, Nat.sub_self, Nat.zero_div, List.range_succ, List.range_zero,
      Nat.zero_mul]
  have hgrid : gridOffsets img img.height img.height = [(0, 0)] := by
    rw [gridOffsets, hsq, hax]
    rfl
  have hext : extractPatch img 0 0 = img.data := by
    funext i j
    simp [extractPatch]
  have hpat : patchesOf img img.height img.height = [img.data] := by
    rw [patchesOf, hgrid]
    show [extractPatch img 0 0] = [img.data]
    rw [hext]
  have hden : denoisedOf img img.height img.height batchSize (List.map f) =
      [f img.data] := by
    rw [denoisedOf, hpat, chunks]
    simp [chunks]
  refine ⟨{ height := img.height, width := img.width,
            data := assembleFrom img.height (fun _ _ => 0)
              ((gridOffsets img img.height img.height).zip
                (denoisedOf img img.height img.height batchSize (List.map f))) },
    by rw [reconstruct, if_neg hcond], hgrid, rfl, rfl, ?_⟩
  intro y hy x hx
  show assembleFrom img.height (fun _ _ => 0)
      ((gridOffsets img img.height img.height).zip
        (denoisedOf img img.height img.height batchSize (List.map f))) y x =
    f img.data y x
  rw [hgrid, hden]
  show writePatch (fun _ _ => 0) img.height 0 0 (f img.data) y x = f img.data y x
  simp only [writePatch]
  rw [if_pos ⟨Nat.zero_le y, by omega, Nat.zero_le x, by omega⟩]
  simp

/-- Witness for C5: the 4 × 4 test image with patchSize 4 and stride 4. -/
theorem reconstruct_single_tile_witness :
    ∃ out, reconstruct testImg 4 4 1 (List.map (fun p => p)) = Except.ok out ∧
      gridOffsets testImg 4 4 = [(0, 0)] ∧
      out.height = testImg.height ∧ out.width = testImg.width ∧
      ∀ y < testImg.height, ∀ x < testImg.width,
        out.data y x = (fun p => p) testImg.data y x :=
  reconstruct_single_tile testImg 1 (fun p => p) (by decide) (by decide) (by decide)

/-- Claim C6: reconstruct fails with InvalidConfiguration exactly when
patchSize exceeds an image dimension, or stride = 0, or stride > patchSize;
the failure does not depend on the backend, so it is reported before any
backend call; in particular patchSize 512 on a 256 × 256 image is
rejected. -/
theorem reconstruct_invalid_configuration (img : Image)
    (patchSize stride batchSize : Nat) (predictB : List Patch → List Patch) :
    (reconstruct img patchSize stride batchSize predictB =
        Except.error ReconError.invalidConfiguration ↔
      (img.height < patchSize ∨ img.width < patchSize ∨ stride = 0 ∨
        patchSize < stride)) ∧
    (∀ predictB2,
      (img.height < patchSize ∨ img.width < patchSize ∨ stride = 0 ∨
        patchSize < stride) →
      reconstruct img patchSize stride batchSize predictB =
        reconstruct img patchSize stride batchSize predictB2) ∧
    reconstruct { height := 256, width := 256, data := fun _ _ => 0 } 512 256 2
        predictB = Except.error ReconError.invalidConfiguration := by
  refine ⟨⟨?_, ?_⟩, ?_, ?_⟩
  · intro h
    by_contra hc
    rw [reconstruct, if_neg hc] at h
    exact Except.noConfusion h
  · intro h
    rw [reconstruct, if_pos h]
  · intro predictB2 h
    rw [reconstruct, if_pos h, reconstruct, if_pos h]
  · rw [reconstruct, if_pos (Or.inl (by norm_num))]

/-- Claim C7: for an element-wise backend, the batch size has no effect on
the result of reconstruct. -/
theorem reconstruct_batch_size_invariant (img : Image) (patchSize stride b1 b2 : Nat)
    (f : Patch → Patch) (hb1 : 0 < b1) (hb2 : 0 < b2) :
    reconstruct img patchSize stride b1 (List.map f) =
      reconstruct img patchSize stride b2 (List.map f) := by
  have h1 : denoisedOf img patchSize stride b1 (List.map f) =
      denoisedOf img patchSize stride b2 (List.map f) := by
    rw [denoisedOf, denoisedOf, chunks_map_flatten, chunks_map_flatten]
  simp only [reconstruct, h1]

/-- Witness for C7: batch sizes 1 and 2 on the 4 × 4 test image agree. -/
theorem reconstruct_batch_size_invariant_witness :
    reconstruct testImg 2 1 1 (List.map (fun p => p)) =
      reconstruct testImg 2 1 2 (List.map (fun p => p)) :=
  reconstruct_batch_size_invariant testImg 2 1 1 2 (fun p => p)
    (by decide) (by decide)

/-- Claim C8, counterexample: a 2048 × 256 image takes the patch-based path
(2048 > 1024) while its second dimension 256 is smaller than the patch size
512 passed by the driver, so the tiled precondition claimed for both
dimensions fails. -/
theorem batch_dispatch_counterexample :
    usesPatchBased 2048 256 1024 = true ∧
    ¬ (driverPatchSize 1024 ≤ 2048 ∧ driverPatchSize 1024 ≤ 256) := by
  decide

/-- Claim C8, amended: whenever the Batch Driver takes the patch-based
path, at least one of the two image dimensions (the one that exceeded
max_size_gpu) is at least the patch size max_size_gpu / 2 it passes; the
claim for both dimensions simultaneously does not hold. -/
theorem batch_dispatch_amended (nx ny maxSizeGpu : Nat)
    (h : usesPatchBased nx ny maxSizeGpu = true) :
    driverPatchSize maxSizeGpu ≤ nx ∨ driverPatchSize maxSizeGpu ≤ ny := by
  simp only [usesPatchBased, Bool.or_eq_true, decide_eq_true_eq] at h
  rcases h with h | h
  · left; simp only [driverPatchSize]; omega
  · right; simp only [driverPatchSize]; omega

/-- Witness for the amended C8 at the dispatch of a 2048 × 256 image. -/
theorem batch_dispatch_amended_witness :
    driverPatchSize 1024 ≤ 2048 ∨ driverPatchSize 1024 ≤ 256 :=
  batch_dispatch_amended 2048 256 1024 (by decide)

/-- Claim C9: the save cells write the denoised image with resolution
(1/pixelsize, 1/pixelsize) for the pixelsize read as
XResolution.value[1] / XResolution.value[0] from the same input, and with
the unit read from the ImageJ metadata, falling back to the literal token
px when the input has no ImageJ calibration; consequently the written
resolution equals the original XResolution ratio. -/
theorem saved_metadata_matches (t : TiffInfo) :
    (saveDenoised t).resolution =
      (1 / (t.xresDen / t.xresNum), 1 / (t.xresDen / t.xresNum)) ∧
    (saveDenoised t).unit = (if t.isImageJ then t.imagejUnit else "px") ∧
    (saveDenoised t).resolution = (t.xresNum / t.xresDen, t.xresNum / t.xresDen) := by
  refine ⟨rfl, rfl, ?_⟩
  simp [saveDenoised, readPixelsize, one_div_div]

/-- Claim C10: a subdirectory of the denoise directory is processed exactly
when its name is one of the six model tokens, and the image count announced
before processing equals the number of tif files in the processed
subdirectories. -/
theorem batch_driver_filter_count (dirs : List Subdir) :
    (∀ d, d ∈ processedSubdirs dirs ↔
      (d ∈ dirs ∧ (d.name = "sfr_hrstem" ∨ d.name = "sfr_lrstem" ∨
        d.name = "sfr_hrsem" ∨ d.name = "sfr_lrsem" ∨ d.name = "sfr_hrtem" ∨
        d.name = "sfr_lrtem"))) ∧
    countDetectedImages dirs =
      ((processedSubdirs dirs).map (fun d => d.tifFiles.length)).sum := by
  constructor
  · intro d
    simp [processedSubdirs, List.mem_filter, valid_models]
  · rw [countDetectedImages, countDetectedImages_aux]
    simp

end REm
